import Mathlib

/-!
Shallow embedding of the finarius portfolio engine core
(`finarius_app/core/engine` and `finarius_app/core/metrics`) and proofs
of the specified properties.

Conventions of the embedding:
* Python `float` amounts are modelled as exact rationals `ℚ` (the one
  place a square root is demanded, volatility, is `ℝ`-valued).
* Python `datetime.date` is modelled as a day number `ℤ`;
  `date - timedelta(days=1)` becomes `d - 1`.
* A transaction row is modelled by `Txn`; fields that are nullable in the
  database are `Option`-valued.  `get_transactions_by_account` is modelled
  by filtering the account's transaction list on the date range.
* Python dicts keyed by symbol are association lists updated in place
  (`updMap`), preserving insertion order exactly as a Python dict does.
-/

namespace Finarius

/-- `str.upper()` on a symbol: character-wise uppercasing (kernel-reducible
restatement of `String.toUpper`, which maps `Char.toUpper` over the string). -/
def upperStr (s : String) : String := ⟨s.data.map Char.toUpper⟩

/-- A ledger transaction row (`core/models/transaction.py`). -/
structure Txn where
  id : ℕ
  date : ℤ
  type : String
  symbol : Option String
  qty : Option ℚ
  price : Option ℚ
  fee : Option ℚ
  deriving Repr, DecidableEq

/-- A reconstructed position entry: the `{'qty', 'cost_basis', 'avg_price'}`
dict of `engine/positions.py`. -/
structure Pos where
  qty : ℚ
  cost_basis : ℚ
  avg_price : ℚ
  deriving Repr, DecidableEq

/-- The positions dictionary: symbol -> position, insertion ordered. -/
abbrev PMap := List (String × Pos)

/-- First-match lookup in a string-keyed association list (Python `dict`
access). -/
def dlookup {β : Type} (s : String) : List (String × β) → Option β
  | [] => none
  | (s', b) :: rest => if s' = s then some b else dlookup s rest

/-- In-place update of key `s` (Python `dict` item assignment): replaces the
first binding of `s`, or appends a new binding at the end. -/
def updMap (s : String) (p : Pos) : PMap → PMap
  | [] => [(s, p)]
  | (s', p') :: rest => if s' = s then (s, p) :: rest else (s', p') :: updMap s p rest

/-- `transactions.sort(key=lambda t: (t.date, t.id))`: ascending by
(date, id). -/
def txnLE (a b : Txn) : Bool :=
  decide (a.date < b.date ∨ (a.date = b.date ∧ a.id ≤ b.id))

/-- Insert `x` after every element `y` with `le y x` (so an element arriving
later stays after equal keys: a stable insertion). -/
def insertAfterLE (le : α → α → Bool) (x : α) : List α → List α
  | [] => [x]
  | y :: ys => if le y x then y :: insertAfterLE le x ys else x :: y :: ys

/-- Stable ascending sort (models Python's stable `list.sort`). -/
def sortBy (le : α → α → Bool) (l : List α) : List α :=
  l.foldl (fun acc x => insertAfterLE le x acc) []

/-- Replay of one transaction into the positions dict: the body of the
`for transaction in transactions` loop of `get_positions`
(`engine/positions.py` lines 52-117).  Note that the zero entry is
created as soon as the type is BUY/SELL and the symbol is non-empty,
*before* qty/price are checked, exactly as in the Python code. -/
def applyTxn (m : PMap) (t : Txn) : PMap :=
  if t.type ≠ "BUY" ∧ t.type ≠ "SELL" then m
  else
    match t.symbol with
    | none => m
    | some s0 =>
      if s0 = "" then m
      else
        let sym := upperStr s0
        -- initialize position if not exists
        let m1 := if (dlookup sym m).isSome then m else updMap sym ⟨0, 0, 0⟩ m
        let cur := (dlookup sym m1).getD ⟨0, 0, 0⟩
        if t.type = "BUY" then
          match t.qty, t.price with
          | some q, some pr =>
            let newQty := cur.qty + q
            let newCb := cur.cost_basis + (q * pr + t.fee.getD 0)
            let newAvg := if newQty > 0 then newCb / newQty else cur.avg_price
            updMap sym ⟨newQty, newCb, newAvg⟩ m1
          | _, _ => m1
        else
          match t.qty, t.price with
          | some q, some _ =>
            let sellQty := if q > cur.qty then cur.qty else q
            if sellQty > 0 then
              let newQty := cur.qty - sellQty
              let newCb := cur.cost_basis - sellQty * cur.avg_price
              let newAvg := if newQty > 0 then newCb / newQty else 0
              updMap sym ⟨newQty, newCb, newAvg⟩ m1
            else m1
          | _, _ => m1

/-- `get_positions(account_id, position_date)` (`engine/positions.py`):
replay all of the account's transactions with date ≤ the as-of date in
ascending (date, id) order, then drop entries with qty ≤ 0. -/
def get_positions (txs : List Txn) (asOf : ℤ) : PMap :=
  let rel := txs.filter (fun t => t.date ≤ asOf)
  let sorted := sortBy txnLE rel
  let replayed := sorted.foldl applyTxn []
  replayed.filter (fun e => e.2.qty > 0)

/-! ## Cash flows (`engine/cash_flows.py`) -/

/-- A derived cash flow entry: the dict appended by `get_cash_flows`. -/
structure CashFlow where
  date : ℤ
  type : String
  amount : ℚ
  symbol : Option String
  deriving Repr, DecidableEq

/-- The body of the `for transaction in transactions` loop of
`get_cash_flows` (`engine/cash_flows.py` lines 52-100): DEPOSIT amount is
`+qty` (fallback `+price`), WITHDRAW is `-qty` (fallback `-price`),
DIVIDEND is `qty*price` if both present else the single present field;
an entry with neither field is skipped. -/
def cashFlowOfTxn (t : Txn) : Option CashFlow :=
  if t.type = "DEPOSIT" then
    match t.qty, t.price with
    | some q, _ => some ⟨t.date, t.type, q, t.symbol⟩
    | none, some p => some ⟨t.date, t.type, p, t.symbol⟩
    | none, none => none
  else if t.type = "WITHDRAW" then
    match t.qty, t.price with
    | some q, _ => some ⟨t.date, t.type, -q, t.symbol⟩
    | none, some p => some ⟨t.date, t.type, -p, t.symbol⟩
    | none, none => none
  else if t.type = "DIVIDEND" then
    match t.qty, t.price with
    | some q, some p => some ⟨t.date, t.type, q * p, t.symbol⟩
    | some q, none => some ⟨t.date, t.type, q, t.symbol⟩
    | none, some p => some ⟨t.date, t.type, p, t.symbol⟩
    | none, none => none
  else none

/-- `cash_flows.sort(key=lambda x: x["date"])`. -/
def cfDateLE (a b : CashFlow) : Bool := decide (a.date ≤ b.date)

/-- `get_cash_flows(account_id, start_date, end_date)`: DEPOSIT/WITHDRAW/
DIVIDEND entries in the inclusive range, sorted by date. -/
def get_cash_flows (txs : List Txn) (startD endD : ℤ) : List CashFlow :=
  let rel := txs.filter (fun t => startD ≤ t.date ∧ t.date ≤ endD)
  sortBy cfDateLE (rel.filterMap cashFlowOfTxn)

/-! ## Realized gains (`metrics/realized_gains.py`) -/

/-- `calculate_realized_gains(account_id, start_date, end_date)`: for each
SELL in range with symbol/qty/price present, add
`(qty*price - fee) - qty * avg_price` where `avg_price` is taken from the
positions reconstructed as of the transaction date minus one day; a SELL
whose symbol is not in that snapshot is skipped. -/
def calculate_realized_gains (txs : List Txn) (startD endD : ℤ) : ℚ :=
  (txs.filter fun t => startD ≤ t.date ∧ t.date ≤ endD).foldl
    (fun acc t =>
      if t.type ≠ "SELL" then acc
      else
        match t.symbol with
        | none => acc
        | some s0 =>
          if s0 = "" then acc
          else
            match t.qty, t.price with
            | some q, some pr =>
              let sym := upperStr s0
              let positions := get_positions txs (t.date - 1)
              match dlookup sym positions with
              | none => acc
              | some pos => acc + ((q * pr - t.fee.getD 0) - q * pos.avg_price)
            | _, _ => acc)
    0

/-! ## Portfolio valuation (`engine/portfolio_value.py`)

The price collaborators are modelled as functions: `getPrice` is the cached
lookup `get_price(symbol, date)` returning the close or absent, and
`download` is `PriceDownloader.download_price`, which can also raise — its
result is an `Except`, with `.error` standing for a raised exception. -/

/-- Price resolution shared by `calculate_portfolio_value` and
`get_portfolio_breakdown`: try `get_price`, then `download_price` with any
exception caught and treated as absent. -/
def resolvePrice (getPrice : String → ℤ → Option ℚ)
    (download : String → ℤ → Except Unit (Option ℚ))
    (sym : String) (d : ℤ) : Option ℚ :=
  match getPrice sym d with
  | some p => some p
  | none =>
    match download sym d with
    | .ok p => p
    | .error _ => none

/-- One position's contribution to `calculate_portfolio_value`: market
price when available, otherwise the position's `cost_basis`. -/
def pvTerm (priceAt : String → ℤ → Option ℚ) (d : ℤ) (e : String × Pos) : ℚ :=
  match priceAt e.1 d with
  | none => e.2.cost_basis
  | some close => e.2.qty * close

/-- `calculate_portfolio_value(account_id, value_date)`: sum `qty * close`
over held positions, falling back to `cost_basis` when no price is
available (positions with qty ≤ 0 are skipped by the loop). -/
def calculate_portfolio_value (txs : List Txn) (d : ℤ)
    (getPrice : String → ℤ → Option ℚ)
    (download : String → ℤ → Except Unit (Option ℚ)) : ℚ :=
  ((get_positions txs d).filter (fun e => ¬ e.2.qty ≤ 0)).foldl
    (fun acc e => acc + pvTerm (resolvePrice getPrice download) d e) 0

/-- The date stride for a frequency: 1 / 7 / 30 days (unknown frequencies
fall back to daily). -/
def freqStep (frequency : String) : ℤ :=
  if frequency = "daily" then 1
  else if frequency = "weekly" then 7
  else if frequency = "monthly" then 30
  else 1

/-- The dates visited by `while current_date <= end_date: ...;
current_date += delta`: `startD, startD+step, ...` up to `endD`
inclusive (empty when `startD > endD`). -/
def strideDates (startD endD step : ℤ) : List ℤ :=
  if startD > endD ∨ step ≤ 0 then []
  else (List.range ((endD - startD).toNat / step.toNat + 1)).map
    (fun k => startD + step * (k : ℤ))

/-- `calculate_portfolio_value_over_time(account_id, start, end, frequency)`:
the value at each stride date, keyed by date (ascending). -/
def calculate_portfolio_value_over_time (txs : List Txn) (startD endD : ℤ)
    (frequency : String) (getPrice : String → ℤ → Option ℚ)
    (download : String → ℤ → Except Unit (Option ℚ)) : List (ℤ × ℚ) :=
  (strideDates startD endD (freqStep frequency)).map
    (fun d => (d, calculate_portfolio_value txs d getPrice download))

/-- The per-symbol dict of `get_portfolio_breakdown`. -/
structure BreakdownEntry where
  qty : ℚ
  cost_basis : ℚ
  current_value : ℚ
  unrealized_gain : ℚ
  deriving Repr, DecidableEq

/-- `get_portfolio_breakdown(account_id, breakdown_date)`: per symbol
`{qty, cost_basis, current_value, unrealized_gain}`, where the current
price falls back to the position's `avg_price` when no price is available
(`current_price = price_obj.close if price_obj else position["avg_price"]`). -/
def get_portfolio_breakdown (txs : List Txn) (d : ℤ)
    (getPrice : String → ℤ → Option ℚ)
    (download : String → ℤ → Except Unit (Option ℚ)) :
    List (String × BreakdownEntry) :=
  (get_positions txs d).foldl
    (fun acc e =>
      if e.2.qty ≤ 0 then acc
      else
        let currentPrice := (resolvePrice getPrice download e.1 d).getD e.2.avg_price
        let currentValue := e.2.qty * currentPrice
        acc ++ [(e.1, ⟨e.2.qty, e.2.cost_basis, currentValue,
                       currentValue - e.2.cost_basis⟩)])
    []

/-! ## IRR (`metrics/returns.py`, `calculate_irr`) -/

/-- The signed flow/date series built by `calculate_irr` lines 256-281:
per cash flow, DEPOSIT contributes `-amount` (outflow) while WITHDRAW and
DIVIDEND contribute `amount` as produced by `get_cash_flows`; then
`-start_value` is prepended when `start_value > 0` and `end_value` is
appended when `end_value > 0`. -/
def irrFlows (cfs : List CashFlow) (startValue endValue : ℚ)
    (startD endD : ℤ) : List (ℚ × ℤ) :=
  let base := cfs.map (fun cf =>
    (if cf.type = "DEPOSIT" then -cf.amount else cf.amount, cf.date))
  let withStart := if startValue > 0 then (-startValue, startD) :: base else base
  if endValue > 0 then withStart ++ [(endValue, endD)] else withStart

/-- `tolerance = 1e-6`. -/
def irrTolerance : ℚ := 1 / 1000000

/-- One Newton-Raphson update with the rate floor:
`rate = rate - npv/derivative; if rate < -0.99: rate = -0.99`. -/
def newtonStep (npvF dF : ℚ → ℚ) (r : ℚ) : ℚ :=
  let r' := r - npvF r / dF r
  if r' < -(99 / 100) then -(99 / 100) else r'

/-- The `for _ in range(max_iterations)` loop of `calculate_irr`: return
the rate once `|npv| < tolerance`, give up (`None`) when the derivative's
magnitude falls below the tolerance, and otherwise keep iterating until
the budget runs out.  The `npv`/`npv_derivative` closures evaluate
`flow/(1+r)^(days/365.25)` in floating point; the solver is embedded
generically over those two functions. -/
def newtonLoop (npvF dF : ℚ → ℚ) : ℕ → ℚ → Option ℚ
  | 0, _ => none
  | n + 1, r =>
    if |npvF r| < irrTolerance then some r
    else if |dF r| < irrTolerance then none
    else newtonLoop npvF dF n (newtonStep npvF dF r)

/-- The solving part of `calculate_irr` (lines 283-325): `None` when fewer
than 2 flows exist, otherwise Newton-Raphson from the initial guess with
`max_iterations = 100`. -/
def irrSolve (npvF dF : ℚ → ℚ) (flows : List (ℚ × ℤ)) (guess : ℚ) : Option ℚ :=
  if flows.length < 2 then none
  else newtonLoop npvF dF 100 guess

/-! ## TWRR (`metrics/returns.py`, `calculate_twrr`) -/

/-- `sorted(set(...))` for dates. -/
def dedupSorted (l : List ℤ) : List ℤ :=
  sortBy (fun a b => decide (a ≤ b)) l.dedup

/-- The `for cf_date in cf_dates` loop of `calculate_twrr`: skip boundary
dates at or before the previous boundary, and record the simple return of
each sub-period whose starting value is positive. -/
def twrrLoop (V : ℤ → ℚ) : List ℤ → ℤ → ℚ → List ℚ → List ℚ
  | [], _, _, acc => acc
  | d :: rest, prevD, prevV, acc =>
    if d ≤ prevD then twrrLoop V rest prevD prevV acc
    else
      let endV := V d
      let acc' := if prevV > 0 then acc ++ [(endV - prevV) / prevV] else acc
      twrrLoop V rest d endV acc'

/-- `calculate_twrr(account_id, start_date, end_date)`: partition at the
distinct cash-flow dates plus the end date, chain the recorded sub-period
returns multiplicatively, `0.0` when no sub-period was recorded. -/
def calculate_twrr (txs : List Txn) (startD endD : ℤ)
    (getPrice : String → ℤ → Option ℚ)
    (download : String → ℤ → Except Unit (Option ℚ)) : ℚ :=
  let V := fun d => calculate_portfolio_value txs d getPrice download
  let cfs := get_cash_flows txs startD endD
  let cfDates := dedupSorted (cfs.map (·.date)) ++ [endD]
  let rets := twrrLoop V cfDates startD (V startD) []
  if rets = [] then 0
  else (rets.foldl (fun acc r => acc * (1 + r)) 1) - 1

/-! ## Risk metrics (`metrics/risk_metrics.py`) -/

/-- The daily-returns loop shared shape of `calculate_volatility`
(lines 180-186): simple returns between consecutive values, skipping
pairs whose starting value is not positive. -/
def dailyReturns (values : List (ℤ × ℚ)) : List ℚ :=
  (values.zip values.tail).foldl
    (fun acc pair =>
      if pair.1.2 > 0 then acc ++ [(pair.2.2 - pair.1.2) / pair.1.2] else acc)
    []

/-- `calculate_volatility(account_id, start_date, end_date)`: `0.0` with
fewer than 2 value points or fewer than 2 daily returns, otherwise the
sample standard deviation (n-1 denominator) annualized by `sqrt(252)`.
Real-valued because of the square root. -/
noncomputable def calculate_volatility (txs : List Txn) (startD endD : ℤ)
    (getPrice : String → ℤ → Option ℚ)
    (download : String → ℤ → Except Unit (Option ℚ)) : ℝ :=
  let values := calculate_portfolio_value_over_time txs startD endD "daily"
    getPrice download
  if values.length < 2 then 0
  else
    let rets := dailyReturns values
    if rets.length < 2 then 0
    else
      let n : ℚ := rets.length
      let mean := rets.sum / n
      let variance := ((rets.map (fun r => (r - mean) ^ 2)).sum) / (n - 1)
      Real.sqrt (variance : ℝ) * Real.sqrt 252

/-- The peak-tracking walk of `calculate_max_drawdown` (lines 127-134). -/
def mddLoop : List ℚ → ℚ → ℚ → ℚ
  | [], _, best => best
  | v :: rest, peak, best =>
    if v > peak then mddLoop rest v best
    else
      let dd := if peak > 0 then (peak - v) / peak else 0
      mddLoop rest peak (if dd > best then dd else best)

/-- `calculate_max_drawdown(account_id, start_date, end_date)`: `0.0` with
fewer than 2 value points, otherwise the maximum of `(peak - value)/peak`
over the chronological walk (peak initialized to the first value). -/
def calculate_max_drawdown (txs : List Txn) (startD endD : ℤ)
    (getPrice : String → ℤ → Option ℚ)
    (download : String → ℤ → Except Unit (Option ℚ)) : ℚ :=
  let values := calculate_portfolio_value_over_time txs startD endD "daily"
    getPrice download
  if values.length < 2 then 0
  else
    match values with
    | [] => 0
    | v :: _ => mddLoop (values.map Prod.snd) v.2 0

/-- `benchmark_dict = {p.date: p.close for p in benchmark_prices}`: a later
row for the same date overwrites an earlier one. -/
def benchLookup (bps : List (ℤ × ℚ)) (d : ℤ) : Option ℚ :=
  bps.foldl (fun acc p => if p.1 = d then some p.2 else acc) none

/-- The alignment loop of `calculate_beta` (lines 253-269): consecutive
portfolio dates both present in the benchmark dict, with both starting
values positive, produce one aligned return pair. -/
def betaAlignedReturns (values : List (ℤ × ℚ)) (bench : ℤ → Option ℚ) :
    List (ℚ × ℚ) :=
  (values.zip values.tail).foldl
    (fun acc pair =>
      let prevD := pair.1.1
      let prevV := pair.1.2
      let currD := pair.2.1
      let currV := pair.2.2
      match bench prevD, bench currD with
      | some bp, some bc =>
        if prevV > 0 ∧ bp > 0 then
          acc ++ [((currV - prevV) / prevV, (bc - bp) / bp)]
        else acc
      | _, _ => acc)
    []

/-- `calculate_beta(account_id, benchmark_symbol, start_date, end_date)`:
`None` with fewer than 2 benchmark prices or value points, `None` with
fewer than 2 aligned return pairs or zero benchmark variance, otherwise
covariance/variance (n-1 denominators). -/
def calculate_beta (txs : List Txn) (bps : List (ℤ × ℚ)) (startD endD : ℤ)
    (getPrice : String → ℤ → Option ℚ)
    (download : String → ℤ → Except Unit (Option ℚ)) : Option ℚ :=
  let values := calculate_portfolio_value_over_time txs startD endD "daily"
    getPrice download
  if bps.length < 2 ∨ values.length < 2 then none
  else
    let rets := betaAlignedReturns values (benchLookup bps)
    if rets.length < 2 then none
    else
      let n : ℚ := rets.length
      let pm := (rets.map Prod.fst).sum / n
      let bm := (rets.map Prod.snd).sum / n
      let cov := ((rets.map (fun pr => (pr.1 - pm) * (pr.2 - bm))).sum) / (n - 1)
      let bvar := ((rets.map (fun pr => (pr.2 - bm) ^ 2)).sum) / (n - 1)
      if bvar = 0 then none else some (cov / bvar)

/-! ## Error-channel view for the range-taking operations

None of `get_cash_flows`, `calculate_realized_gains` or
`calculate_volatility` contains a `raise`, and the query layer
(`models/queries.py`) only filters `date >= start AND date <= end`; the
`Except`-valued views below make "raises `ValidationError`" statable: a
raised error would be `.error`, and these bodies — like the Python
bodies — only ever produce `.ok`. -/

/-- The `ValidationError` of `core/exceptions.py` (the only member we need). -/
inductive CoreError where
  | validationError
  deriving Repr, DecidableEq

/-- `get_cash_flows` as run: no code path raises. -/
def get_cash_flowsE (txs : List Txn) (startD endD : ℤ) :
    Except CoreError (List CashFlow) :=
  .ok (get_cash_flows txs startD endD)

/-- `calculate_realized_gains` as run: no code path raises. -/
def calculate_realized_gainsE (txs : List Txn) (startD endD : ℤ) :
    Except CoreError ℚ :=
  .ok (calculate_realized_gains txs startD endD)

/-- `calculate_volatility` as run: no code path raises. -/
noncomputable def calculate_volatilityE (txs : List Txn) (startD endD : ℤ)
    (getPrice : String → ℤ → Option ℚ)
    (download : String → ℤ → Except Unit (Option ℚ)) : Except CoreError ℝ :=
  .ok (calculate_volatility txs startD endD getPrice download)

/-! ## Spec-side definitions

These restate operations in the specification's vocabulary, to be compared
with the source-side definitions above. -/

/-- The position-replay step as the spec states it: on a BUY with symbol,
qty and price, `qty += t.qty; cost_basis += t.qty*t.price + t.fee;
avg_cost = cost_basis/qty`; on a SELL with symbol, qty and price,
`sell_qty = min(t.qty, qty)`, `cost_basis -= sell_qty * avg_cost` (pre-sale
average cost), `qty -= sell_qty`, `avg_cost = cost_basis/qty if qty > 0
else 0`; BUY/SELL missing symbol, qty or price, and other transaction
types, have no effect. -/
def specStep (m : PMap) (t : Txn) : PMap :=
  match t.symbol with
  | none => m
  | some s0 =>
    if s0 = "" then m
    else
      let sym := upperStr s0
      let cur := (dlookup sym m).getD ⟨0, 0, 0⟩
      if t.type = "BUY" then
        match t.qty, t.price with
        | some q, some pr =>
          let newQty := cur.qty + q
          let newCb := cur.cost_basis + (q * pr + t.fee.getD 0)
          updMap sym ⟨newQty, newCb, newCb / newQty⟩ m
        | _, _ => m
      else if t.type = "SELL" then
        match t.qty, t.price with
        | some q, some _ =>
          let sellQty := min q cur.qty
          let newQty := cur.qty - sellQty
          let newCb := cur.cost_basis - sellQty * cur.avg_price
          let newAvg := if newQty > 0 then newCb / newQty else 0
          updMap sym ⟨newQty, newCb, newAvg⟩ m
        | _, _ => m
      else m

/-- Positions as the spec describes them: replay the transactions with
date ≤ as-of in ascending (date, id) order through `specStep`, then drop
symbols whose quantity is not positive. -/
def spec_positions (txs : List Txn) (asOf : ℤ) : PMap :=
  ((sortBy txnLE (txs.filter (fun t => t.date ≤ asOf))).foldl specStep
    []).filter (fun e => e.2.qty > 0)

/-- The IRR cash-flow series as claim C4 states it: the signed
DEPOSIT/WITHDRAW/DIVIDEND amounts exactly as `get_cash_flows` signed them
(deposit/dividend positive, withdrawal negative), bracketed by
`-start_value` and `+end_value` when positive. -/
def irrFlowsClaimed (cfs : List CashFlow) (startValue endValue : ℚ)
    (startD endD : ℤ) : List (ℚ × ℤ) :=
  let base := cfs.map (fun cf => (cf.amount, cf.date))
  let withStart := if startValue > 0 then (-startValue, startD) :: base else base
  if endValue > 0 then withStart ++ [(endValue, endD)] else withStart

/-- The sequence of rates the Newton-Raphson iteration of `calculate_irr`
visits: the initial guess, then clamped Newton updates. -/
def rateSeq (npvF dF : ℚ → ℚ) (guess : ℚ) : ℕ → ℚ
  | 0 => guess
  | n + 1 => newtonStep npvF dF (rateSeq npvF dF guess n)

/-- Convergence of the iteration within `N` steps: some visited rate
satisfies `|npv| < tolerance` with no earlier derivative underflow (every
earlier rate has `|npv| ≥ tolerance` and `|derivative| ≥ tolerance`). -/
def convergesWithin (npvF dF : ℚ → ℚ) (guess : ℚ) (N : ℕ) : Prop :=
  ∃ k < N, |npvF (rateSeq npvF dF guess k)| < irrTolerance ∧
    ∀ j < k, irrTolerance ≤ |npvF (rateSeq npvF dF guess j)| ∧
      irrTolerance ≤ |dF (rateSeq npvF dF guess j)|

/-- The contribution of one SELL transaction to realized gains, as the
spec states it: `(sell_qty*sell_price - fee) - sell_qty*avg_cost_before`,
with `avg_cost_before` the symbol's average cost in the positions as of
the transaction date minus one day. -/
def sellGain (txs : List Txn) (t : Txn) : ℚ :=
  match t.symbol, t.qty, t.price with
  | some s0, some q, some pr =>
    let avgBefore := ((dlookup (upperStr s0)
      (get_positions txs (t.date - 1))).getD ⟨0, 0, 0⟩).avg_price
    (q * pr - t.fee.getD 0) - q * avgBefore
  | _, _, _ => 0

/-- A SELL that contributes to realized gains: in range, fields present,
and its symbol held in the start-of-day position snapshot. -/
def isCountedSell (txs : List Txn) (startD endD : ℤ) (t : Txn) : Bool :=
  decide (startD ≤ t.date ∧ t.date ≤ endD) && (t.type == "SELL") &&
    (match t.symbol, t.qty, t.price with
     | some s0, some _, some _ =>
       !(s0 == "") &&
         (dlookup (upperStr s0) (get_positions txs (t.date - 1))).isSome
     | _, _, _ => false)

/-- The exact amount one transaction adds to the `calculate_realized_gains`
accumulator (0 for a skipped transaction). -/
def sellContrib (txs : List Txn) (t : Txn) : ℚ :=
  if t.type ≠ "SELL" then 0
  else
    match t.symbol with
    | none => 0
    | some s0 =>
      if s0 = "" then 0
      else
        match t.qty, t.price with
        | some q, some pr =>
          match dlookup (upperStr s0) (get_positions txs (t.date - 1)) with
          | none => 0
          | some pos => (q * pr - t.fee.getD 0) - q * pos.avg_price
        | _, _ => 0

/-- The key list of an association list. -/
def keysOf {β : Type} (m : List (String × β)) : List String := m.map Prod.fst

/-- Entry-level invariant. -/
def PosOK (p : Pos) : Prop := 0 < p.qty → p.cost_basis = p.qty * p.avg_price

/-- Map-level invariant. -/
def MapOK (m : PMap) : Prop := ∀ s p, dlookup s m = some p → PosOK p

/-- Well-formedness of one entry under positive transaction quantities. -/
def PosZOK (p : Pos) : Prop :=
  0 ≤ p.qty ∧ (p.qty = 0 → p = ⟨0, 0, 0⟩) ∧
    (0 < p.qty → p.cost_basis = p.qty * p.avg_price)

/-- Well-formedness of the source-side map. -/
def ZOK (m : PMap) : Prop := ∀ s p, dlookup s m = some p → PosZOK p

/-- The source map agrees with the spec map except for extra all-zero
entries. -/
def Rel (m₁ m₂ : PMap) : Prop :=
  ∀ s, dlookup s m₁ = dlookup s m₂ ∨
    (dlookup s m₁ = some ⟨0, 0, 0⟩ ∧ dlookup s m₂ = none)

/-- The C9 scenario ledger: BUY 10 @150 fee 5 on day 1, BUY 5 @160 fee 3 on
day 15. -/
def c9Ledger : List Txn :=
  [⟨1, 1, "BUY", some "AAPL", some 10, some 150, some 5⟩,
   ⟨2, 15, "BUY", some "AAPL", some 5, some 160, some 3⟩]

/-- The C3 scenario ledger: BUY 10 @150 fee 5 on day 1, then SELL 4 @160
fee 3 on day 10. -/
def c3Ledger : List Txn :=
  [⟨1, 1, "BUY", some "AAPL", some 10, some 150, some 5⟩,
   ⟨2, 10, "SELL", some "AAPL", some 4, some 160, some 3⟩]

end Finarius

namespace Finarius

/-! ## Association-list lemmas -/

theorem dlookup_updMap (s t : String) (p : Pos) (m : PMap) :
    dlookup t (updMap s p m) = if s = t then some p else dlookup t m := by
  induction m with
  | nil =>
    by_cases ht : s = t <;> simp [updMap, dlookup, ht]
  | cons e rest ih =>
    obtain ⟨s', p'⟩ := e
    by_cases h : s' = s
    · subst h
      by_cases ht : s' = t <;> simp [updMap, dlookup, ht]
    · have hst : s = t → ¬(s' = t) := by rintro rfl; exact h
      by_cases ht : s' = t
      · subst ht
        have : ¬(s = s') := fun hc => h hc.symm
        simp [updMap, h, dlookup, this]
      · simp [updMap, h, dlookup, ht, ih]

theorem keysOf_cons {β : Type} (e : String × β) (m : List (String × β)) :
    keysOf (e :: m) = e.1 :: keysOf m := rfl

theorem dlookup_mem_keys {β : Type} (s : String) (m : List (String × β)) :
    (dlookup s m).isSome ↔ s ∈ keysOf m := by
  induction m with
  | nil => simp [dlookup, keysOf]
  | cons e rest ih =>
    obtain ⟨s', b⟩ := e
    by_cases h : s' = s
    · subst h; simp [dlookup, keysOf_cons]
    · have h2 : ¬(s = s') := fun hc => h hc.symm
      simp [dlookup, keysOf_cons, List.mem_cons, h, h2, ih]

theorem keysOf_updMap (s : String) (p : Pos) (m : PMap) :
    keysOf (updMap s p m) = if s ∈ keysOf m then keysOf m else keysOf m ++ [s] := by
  induction m with
  | nil => simp [updMap, keysOf]
  | cons e rest ih =>
    obtain ⟨s', p'⟩ := e
    by_cases h : s' = s
    · subst h
      simp [updMap, keysOf_cons, List.mem_cons]
    · have h' : ¬(s = s') := fun hc => h hc.symm
      by_cases hm : s ∈ keysOf rest
      · simp [updMap, h, keysOf_cons, List.mem_cons, h', hm, ih]
      · simp [updMap, h, keysOf_cons, List.mem_cons, h', hm, ih]

theorem nodup_keys_updMap (s : String) (p : Pos) (m : PMap)
    (h : (keysOf m).Nodup) : (keysOf (updMap s p m)).Nodup := by
  rw [keysOf_updMap]
  by_cases hm : s ∈ keysOf m
  · simpa [hm]
  · rw [if_neg hm, List.nodup_append]
    refine ⟨h, List.nodup_singleton s, fun a ha hb => hm ?_⟩
    simp at hb
    exact hb ▸ ha

theorem dlookup_filter {β : Type} (pred : β → Bool) (s : String)
    (m : List (String × β)) (h : (keysOf m).Nodup) :
    dlookup s (m.filter (fun e => pred e.2)) =
      (dlookup s m).bind (fun b => if pred b then some b else none) := by
  induction m with
  | nil => simp [dlookup]
  | cons e rest ih =>
    obtain ⟨s', b⟩ := e
    have hrest : (keysOf rest).Nodup := (List.nodup_cons.mp h).2
    have hnotin : s' ∉ keysOf rest := (List.nodup_cons.mp h).1
    by_cases hs : s' = s
    · subst hs
      by_cases hp : pred b
      · simp [List.filter, hp, dlookup]
      · have : dlookup s' rest = none := by
          cases hd : dlookup s' rest with
          | none => rfl
          | some v =>
            exact absurd ((dlookup_mem_keys s' rest).mp (by simp [hd])) hnotin
        simp [List.filter, hp, dlookup, ih hrest, this]
    · by_cases hp : pred b <;>
        simp [List.filter, hp, dlookup, hs, ih hrest]

/-! ## The replay invariant: a positive-quantity entry has
`cost_basis = qty * avg_price` exactly (every write that leaves
`qty > 0` recomputes the average). -/

theorem mapOK_updMap {m : PMap} {s : String} {p : Pos}
    (hm : MapOK m) (hp : PosOK p) : MapOK (updMap s p m) := by
  intro t q hq
  rw [dlookup_updMap] at hq
  by_cases h : s = t
  · simp [h] at hq; exact hq ▸ hp
  · exact hm t q (by simpa [h] using hq)

theorem mapOK_applyTxn {m : PMap} (hm : MapOK m) (t : Txn) :
    MapOK (applyTxn m t) := by
  unfold applyTxn
  by_cases hty : t.type ≠ "BUY" ∧ t.type ≠ "SELL"
  · simpa [hty] using hm
  · simp only [if_neg hty]
    cases hsym : t.symbol with
    | none => exact hm
    | some s0 =>
      by_cases hs0 : s0 = ""
      · simpa [hs0] using hm
      · simp only [if_neg hs0]
        set sym := upperStr s0 with hsymdef
        have hm1 : MapOK (if (dlookup sym m).isSome then m
            else updMap sym ⟨0, 0, 0⟩ m) := by
          by_cases hin : (dlookup sym m).isSome
          · simpa [hin] using hm
          · simp only [hin, if_false]
            exact mapOK_updMap hm (by intro h; norm_num at h)
        set m1 := if (dlookup sym m).isSome then m
            else updMap sym ⟨0, 0, 0⟩ m with hm1def
        set cur := (dlookup sym m1).getD ⟨0, 0, 0⟩ with hcur
        by_cases hbuy : t.type = "BUY"
        · simp only [hbuy, if_true]
          cases hq : t.qty with
          | none => simpa using hm1
          | some q =>
            cases hpr : t.price with
            | none => simpa using hm1
            | some pr =>
              simp only
              apply mapOK_updMap hm1
              intro hpos
              simp only at hpos ⊢
              rw [if_pos hpos]
              field_simp
        · simp only [hbuy, if_false]
          cases hq : t.qty with
          | none => simpa using hm1
          | some q =>
            cases hpr : t.price with
            | none => simpa using hm1
            | some pr =>
              simp only
              by_cases hsq : (if q > cur.qty then cur.qty else q) > 0
              · rw [if_pos hsq]
                apply mapOK_updMap hm1
                intro hpos
                simp only at hpos ⊢
                rw [if_pos hpos]
                field_simp
              · simpa [hsq] using hm1

theorem mapOK_foldl {l : List Txn} {m : PMap} (hm : MapOK m) :
    MapOK (l.foldl applyTxn m) := by
  induction l generalizing m with
  | nil => exact hm
  | cons t rest ih => exact ih (mapOK_applyTxn hm t)

theorem nodup_keys_applyTxn {m : PMap} (hm : (keysOf m).Nodup) (t : Txn) :
    (keysOf (applyTxn m t)).Nodup := by
  unfold applyTxn
  by_cases hty : t.type ≠ "BUY" ∧ t.type ≠ "SELL"
  · simpa [hty] using hm
  · simp only [if_neg hty]
    cases hsym : t.symbol with
    | none => exact hm
    | some s0 =>
      by_cases hs0 : s0 = ""
      · simpa [hs0] using hm
      · simp only [if_neg hs0]
        set sym := upperStr s0 with hsymdef
        have hm1 : (keysOf (if (dlookup sym m).isSome then m
            else updMap sym ⟨0, 0, 0⟩ m)).Nodup := by
          by_cases hin : (dlookup sym m).isSome
          · simpa [hin] using hm
          · simp only [hin, if_false]
            exact nodup_keys_updMap _ _ _ hm
        set m1 := if (dlookup sym m).isSome then m
            else updMap sym ⟨0, 0, 0⟩ m with hm1def
        set cur := (dlookup sym m1).getD ⟨0, 0, 0⟩ with hcur
        by_cases hbuy : t.type = "BUY"
        · simp only [hbuy, if_true]
          cases t.qty with
          | none => simpa using hm1
          | some q =>
            cases t.price with
            | none => simpa using hm1
            | some pr => exact nodup_keys_updMap _ _ _ hm1
        · simp only [hbuy, if_false]
          cases t.qty with
          | none => simpa using hm1
          | some q =>
            cases t.price with
            | none => simpa using hm1
            | some pr =>
              simp only
              by_cases hsq : (if q > cur.qty then cur.qty else q) > 0
              · rw [if_pos hsq]
                exact nodup_keys_updMap _ _ _ hm1
              · rw [if_neg hsq]
                exact hm1

theorem nodup_keys_foldl {l : List Txn} {m : PMap} (hm : (keysOf m).Nodup) :
    (keysOf (l.foldl applyTxn m)).Nodup := by
  induction l generalizing m with
  | nil => exact hm
  | cons t rest ih => exact ih (nodup_keys_applyTxn hm t)

/-- Evaluation facts for concrete symbols, used when running the model on
concrete inputs. -/
theorem upperStr_AAPL : upperStr "AAPL" = "AAPL" := by decide

/-- The two facts C2 needs about any entry of a `get_positions` result:
positive quantity, and exact consistency of cost basis with
quantity × average cost. -/
theorem get_positions_entry_inv {txs : List Txn} {asOf : ℤ} {s : String}
    {p : Pos} (h : dlookup s (get_positions txs asOf) = some p) :
    0 < p.qty ∧ p.cost_basis = p.qty * p.avg_price := by
  unfold get_positions at h
  simp only at h
  rw [dlookup_filter (fun b => decide (b.qty > 0)) s _
    (nodup_keys_foldl (by simp [keysOf]))] at h
  cases hd : dlookup s ((sortBy txnLE
      (txs.filter (fun t => t.date ≤ asOf))).foldl applyTxn []) with
  | none => rw [hd] at h; simp at h
  | some q =>
    rw [hd] at h
    have hOK : PosOK q :=
      mapOK_foldl (by intro a b hb; simp [dlookup] at hb) s q hd
    by_cases hq : q.qty > 0
    · simp [hq] at h
      subst h
      exact ⟨hq, hOK hq⟩
    · simp [hq] at h

/-! ## Claim C2 -/

/-- C2: every position map returned by `get_positions` contains only
symbols with qty > 0 — symbols whose replayed quantity reaches qty ≤ 0
(including after a full-liquidation SELL) are absent — and every returned
position satisfies cost_basis = qty × avg_cost within 1e-6. -/
theorem c2_positions_invariant (txs : List Txn) (asOf : ℤ) (s : String)
    (p : Pos) (h : dlookup s (get_positions txs asOf) = some p) :
    0 < p.qty ∧ |p.cost_basis - p.qty * p.avg_price| ≤ 1 / 1000000 := by
  obtain ⟨h1, h2⟩ := get_positions_entry_inv h
  refine ⟨h1, ?_⟩
  rw [h2]
  simp

/-- Witness for C2 at a concrete one-BUY ledger. -/
theorem c2_positions_invariant_witness :
    (dlookup "AAPL"
      (get_positions [⟨1, 1, "BUY", some "AAPL", some 10, some 150, some 5⟩] 5) =
      some ⟨10, 1505, 301 / 2⟩) ∧
    (0 < (Pos.mk 10 1505 (301 / 2)).qty ∧
      |(Pos.mk 10 1505 (301 / 2)).cost_basis -
        (Pos.mk 10 1505 (301 / 2)).qty * (Pos.mk 10 1505 (301 / 2)).avg_price| ≤
        1 / 1000000) := by
  have heval : dlookup "AAPL"
      (get_positions [⟨1, 1, "BUY", some "AAPL", some 10, some 150, some 5⟩] 5) =
      some ⟨10, 1505, 301 / 2⟩ := by
    norm_num [get_positions, sortBy, insertAfterLE, applyTxn, dlookup, updMap,
      upperStr_AAPL, txnLE]
  exact ⟨heval, c2_positions_invariant _ 5 "AAPL" _ heval⟩

/-! ## Claim C9 -/

/-- Counterexample to C9 as stated: the average cost reported on day 20 is
(1500+5+800+3)/15 = 2308/15 ≈ 153.87, which is more than 3 away from the
claimed ≈ 150.53. -/
theorem c9_avg_cost_cex :
    (dlookup "AAPL" (get_positions c9Ledger 20)).map Pos.avg_price =
      some ((1500 + 5 + 800 + 3) / 15) ∧
    3 < |((1500 + 5 + 800 + 3 : ℚ) / 15) - 15053 / 100| := by
  constructor
  · norm_num [c9Ledger, get_positions, sortBy, insertAfterLE, applyTxn,
      dlookup, updMap, upperStr_AAPL, txnLE]
  · rw [abs_of_pos] <;> norm_num

/-- C9 amended: the reported average cost is (1500+5+800+3)/15 ≈ 153.87
(the claim's formula is what the code computes; its decimal rendering
150.53 is wrong). -/
theorem c9_avg_cost_amended :
    (dlookup "AAPL" (get_positions c9Ledger 20)).map Pos.avg_price =
      some ((1500 + 5 + 800 + 3) / 15) ∧
    |((1500 + 5 + 800 + 3 : ℚ) / 15) - 15387 / 100| < 1 / 100 := by
  constructor
  · norm_num [c9Ledger, get_positions, sortBy, insertAfterLE, applyTxn,
      dlookup, updMap, upperStr_AAPL, txnLE]
  · rw [abs_of_neg] <;> norm_num

/-! ## Claim C8 -/

/-- C8: with fewer than 2 portfolio-value data points in the range,
`calculate_volatility` returns 0.0, `calculate_max_drawdown` returns 0.0
and `calculate_beta` returns None; all three are total functions of their
inputs (nothing is raised). -/
theorem c8_insufficient_data (txs : List Txn) (bps : List (ℤ × ℚ))
    (startD endD : ℤ) (gp : String → ℤ → Option ℚ)
    (dl : String → ℤ → Except Unit (Option ℚ))
    (h : (calculate_portfolio_value_over_time txs startD endD "daily"
      gp dl).length < 2) :
    calculate_volatility txs startD endD gp dl = 0 ∧
    calculate_max_drawdown txs startD endD gp dl = 0 ∧
    calculate_beta txs bps startD endD gp dl = none := by
  refine ⟨?_, ?_, ?_⟩
  · unfold calculate_volatility
    rw [if_pos h]
  · unfold calculate_max_drawdown
    rw [if_pos h]
  · unfold calculate_beta
    rw [if_pos (Or.inr h)]

/-- Witness for C8 on an empty range (start after end: zero data points). -/
theorem c8_insufficient_data_witness :
    ((calculate_portfolio_value_over_time [] 0 (-1) "daily"
        (fun _ _ => none) (fun _ _ => Except.ok none)).length < 2) ∧
    calculate_volatility [] 0 (-1) (fun _ _ => none)
      (fun _ _ => Except.ok none) = 0 ∧
    calculate_max_drawdown [] 0 (-1) (fun _ _ => none)
      (fun _ _ => Except.ok none) = 0 ∧
    calculate_beta [] [] 0 (-1) (fun _ _ => none)
      (fun _ _ => Except.ok none) = none := by
  have h : (calculate_portfolio_value_over_time [] 0 (-1) "daily"
      (fun _ _ => none) (fun _ _ => Except.ok none)).length < 2 := by decide
  exact ⟨h, c8_insufficient_data [] [] 0 (-1) _ _ h⟩

/-! ## Claim C7 -/

theorem strideDates_empty_of_gt {startD endD step : ℤ} (h : endD < startD) :
    strideDates startD endD step = [] := by
  unfold strideDates
  rw [if_pos (Or.inl h)]

theorem range_filter_empty_of_gt {txs : List Txn} {startD endD : ℤ}
    (h : endD < startD) :
    txs.filter (fun t => decide (startD ≤ t.date ∧ t.date ≤ endD)) = [] := by
  apply List.filter_eq_nil_iff.mpr
  intro t _
  simp only [decide_eq_true_eq, not_and]
  intro h1 h2
  exact absurd (le_trans h1 h2) (not_le.mpr h)

/-- C7 amended: none of the range-taking operations validates the range.
With start after end, `get_cash_flows` returns the empty list,
`calculate_realized_gains` returns 0.0 and `calculate_volatility` returns
0.0 — no `ValidationError` is raised (the only start-after-end
`ValidationError` in the code base lives in `utils.get_date_range`, which
none of these operations calls). -/
theorem c7_no_range_validation (txs : List Txn)
    (gp : String → ℤ → Option ℚ) (dl : String → ℤ → Except Unit (Option ℚ))
    (startD endD : ℤ) (h : endD < startD) :
    get_cash_flowsE txs startD endD = Except.ok [] ∧
    calculate_realized_gainsE txs startD endD = Except.ok 0 ∧
    calculate_volatilityE txs startD endD gp dl = Except.ok 0 := by
  refine ⟨?_, ?_, ?_⟩
  · unfold get_cash_flowsE get_cash_flows
    rw [range_filter_empty_of_gt h]
    rfl
  · unfold calculate_realized_gainsE calculate_realized_gains
    rw [range_filter_empty_of_gt h]
    rfl
  · unfold calculate_volatilityE calculate_volatility
      calculate_portfolio_value_over_time
    rw [strideDates_empty_of_gt h]
    simp

/-- Witness for C7's amended statement at a concrete reversed range. -/
theorem c7_no_range_validation_witness :
    ((0 : ℤ) < 10) ∧
    get_cash_flowsE [⟨1, 5, "DEPOSIT", none, some 1000, none, none⟩] 10 0 =
      Except.ok [] ∧
    calculate_realized_gainsE [⟨1, 5, "DEPOSIT", none, some 1000, none, none⟩]
      10 0 = Except.ok 0 ∧
    calculate_volatilityE [⟨1, 5, "DEPOSIT", none, some 1000, none, none⟩]
      10 0 (fun _ _ => none) (fun _ _ => Except.ok none) = Except.ok 0 := by
  exact ⟨by decide,
    c7_no_range_validation [⟨1, 5, "DEPOSIT", none, some 1000, none, none⟩]
      (fun _ _ => none) (fun _ _ => Except.ok none) 10 0 (by decide)⟩

/-- Counterexample to C7 as stated: with start = 10 after end = 0, the
three operations return ordinary `.ok` results — an empty list, 0.0 and
0.0 — not a raised `ValidationError`. -/
theorem c7_validation_error_cex :
    get_cash_flowsE [⟨1, 5, "DEPOSIT", none, some 1000, none, none⟩] 10 0 ≠
      Except.error CoreError.validationError ∧
    calculate_realized_gainsE [⟨1, 5, "DEPOSIT", none, some 1000, none, none⟩]
      10 0 ≠ Except.error CoreError.validationError ∧
    calculate_volatilityE [⟨1, 5, "DEPOSIT", none, some 1000, none, none⟩]
      10 0 (fun _ _ => none) (fun _ _ => Except.ok none) ≠
      Except.error CoreError.validationError := by
  refine ⟨?_, ?_, ?_⟩ <;>
    simp [get_cash_flowsE, calculate_realized_gainsE, calculate_volatilityE]

/-! ## Claim C4 -/

theorem mem_insertAfterLE {α : Type} (le : α → α → Bool) (x a : α)
    (l : List α) : a ∈ insertAfterLE le x l ↔ a = x ∨ a ∈ l := by
  induction l with
  | nil => simp [insertAfterLE]
  | cons y ys ih =>
    by_cases h : le y x
    · simp only [insertAfterLE, if_pos h, List.mem_cons, ih]
      try tauto
    · simp only [insertAfterLE, if_neg h, List.mem_cons]
      try tauto

theorem mem_sortBy {α : Type} (le : α → α → Bool) (a : α) (l : List α) :
    a ∈ sortBy le l ↔ a ∈ l := by
  suffices h : ∀ acc : List α,
      a ∈ l.foldl (fun acc x => insertAfterLE le x acc) acc ↔ a ∈ acc ∨ a ∈ l by
    rw [sortBy, h []]
    simp
  induction l with
  | nil => intro acc; simp
  | cons y ys ih =>
    intro acc
    rw [List.foldl_cons, ih (insertAfterLE le y acc), mem_insertAfterLE]
    simp
    tauto

theorem cashFlowOfTxn_type {t : Txn} {cf : CashFlow}
    (h : cashFlowOfTxn t = some cf) :
    cf.type = "DEPOSIT" ∨ cf.type = "WITHDRAW" ∨ cf.type = "DIVIDEND" := by
  unfold cashFlowOfTxn at h
  by_cases h1 : t.type = "DEPOSIT"
  · rw [if_pos h1] at h
    rcases hq : t.qty with _ | q <;> rcases hp : t.price with _ | p <;>
      rw [hq, hp] at h <;> simp at h <;> try subst h
    all_goals exact Or.inl h1
  · rw [if_neg h1] at h
    by_cases h2 : t.type = "WITHDRAW"
    · rw [if_pos h2] at h
      rcases hq : t.qty with _ | q <;> rcases hp : t.price with _ | p <;>
        rw [hq, hp] at h <;> simp at h <;> try subst h
      all_goals exact Or.inr (Or.inl h2)
    · rw [if_neg h2] at h
      by_cases h3 : t.type = "DIVIDEND"
      · rw [if_pos h3] at h
        rcases hq : t.qty with _ | q <;> rcases hp : t.price with _ | p <;>
          rw [hq, hp] at h <;> simp at h <;> try subst h
        all_goals exact Or.inr (Or.inr h3)
      · rw [if_neg h3] at h
        simp at h

/-- C4 amended: `calculate_irr` brackets the series with `-start_value`
and `+end_value` when positive, pairing each flow with its date, but the
DEPOSIT amounts are *negated* (a deposit enters the IRR series as
`-amount`, i.e. negative), while WITHDRAW and DIVIDEND amounts enter
exactly as signed by `get_cash_flows` (negative resp. positive). -/
theorem c4_irr_flow_series (txs : List Txn) (sv ev : ℚ) (s e : ℤ) :
    irrFlows (get_cash_flows txs s e) sv ev s e =
      (if 0 < sv then [(-sv, s)] else []) ++
      (get_cash_flows txs s e).map
        (fun cf =>
          (if cf.type = "DEPOSIT" then -cf.amount else cf.amount, cf.date)) ++
      (if 0 < ev then [(ev, e)] else []) ∧
    ∀ cf ∈ get_cash_flows txs s e,
      cf.type = "DEPOSIT" ∨ cf.type = "WITHDRAW" ∨ cf.type = "DIVIDEND" := by
  constructor
  · unfold irrFlows
    by_cases hs : 0 < sv <;> by_cases he : 0 < ev <;> simp [hs, he]
  · intro cf hcf
    rw [get_cash_flows, mem_sortBy, List.mem_filterMap] at hcf
    obtain ⟨t, _, ht⟩ := hcf
    exact cashFlowOfTxn_type ht

/-- Counterexample to C4 as stated: a single DEPOSIT of 1000 on day 5
(zero start and end values) produces the IRR flow series [(-1000, 5)],
not the [(1000, 5)] that the claimed construction (deposit kept positive)
yields. -/
theorem c4_deposit_sign_cex :
    irrFlows (get_cash_flows
        [⟨1, 5, "DEPOSIT", none, some 1000, none, none⟩] 0 10) 0 0 0 10 =
      [(-1000, 5)] ∧
    irrFlowsClaimed (get_cash_flows
        [⟨1, 5, "DEPOSIT", none, some 1000, none, none⟩] 0 10) 0 0 0 10 =
      [(1000, 5)] ∧
    ¬([((-1000 : ℚ), (5 : ℤ))] = [((1000 : ℚ), (5 : ℤ))]) := by
  refine ⟨?_, ?_, ?_⟩
  · norm_num [irrFlows, get_cash_flows, sortBy, insertAfterLE,
      List.filterMap_cons, cashFlowOfTxn, cfDateLE]
  · norm_num [irrFlowsClaimed, get_cash_flows, sortBy, insertAfterLE,
      List.filterMap_cons, cashFlowOfTxn, cfDateLE]
  · norm_num

/-! ## Claim C5 -/

theorem rateSeq_succ (npvF dF : ℚ → ℚ) (guess : ℚ) (k : ℕ) :
    rateSeq npvF dF guess (k + 1) = newtonStep npvF dF (rateSeq npvF dF guess k) :=
  rfl

theorem newtonLoop_some_converged (npvF dF : ℚ → ℚ) :
    ∀ (n : ℕ) (r x : ℚ), newtonLoop npvF dF n r = some x →
      |npvF x| < irrTolerance := by
  intro n
  induction n with
  | zero => intro r x h; simp [newtonLoop] at h
  | succ n ih =>
    intro r x h
    rw [newtonLoop] at h
    by_cases hc : |npvF r| < irrTolerance
    · rw [if_pos hc] at h
      cases h
      exact hc
    · rw [if_neg hc] at h
      by_cases hd : |dF r| < irrTolerance
      · rw [if_pos hd] at h
        cases h
      · rw [if_neg hd] at h
        exact ih _ x h

theorem newtonLoop_none_iff (npvF dF : ℚ → ℚ) (guess : ℚ) :
    ∀ (n k : ℕ),
      (newtonLoop npvF dF n (rateSeq npvF dF guess k) = none ↔
        ¬ ∃ j, j < n ∧ |npvF (rateSeq npvF dF guess (k + j))| < irrTolerance ∧
          ∀ i, i < j → irrTolerance ≤ |npvF (rateSeq npvF dF guess (k + i))| ∧
            irrTolerance ≤ |dF (rateSeq npvF dF guess (k + i))|) := by
  intro n
  induction n with
  | zero =>
    intro k
    simp [newtonLoop]
  | succ n ih =>
    intro k
    rw [newtonLoop]
    by_cases hc : |npvF (rateSeq npvF dF guess k)| < irrTolerance
    · rw [if_pos hc]
      refine iff_of_false (by simp) (not_not.mpr ?_)
      exact ⟨0, Nat.succ_pos n, by simpa using hc,
        fun i hi => absurd hi (Nat.not_lt_zero i)⟩
    · have hc' : irrTolerance ≤ |npvF (rateSeq npvF dF guess k)| := not_lt.mp hc
      rw [if_neg hc]
      by_cases hd : |dF (rateSeq npvF dF guess k)| < irrTolerance
      · rw [if_pos hd]
        refine iff_of_true rfl ?_
        rintro ⟨j, hj, hconv, hpre⟩
        cases j with
        | zero => exact absurd (by simpa using hconv) hc
        | succ j' =>
          exact absurd hd (not_lt.mpr (hpre 0 (Nat.succ_pos j')).2)
      · have hd' : irrTolerance ≤ |dF (rateSeq npvF dF guess k)| := not_lt.mp hd
        rw [if_neg hd, ← rateSeq_succ npvF dF guess k, ih (k + 1)]
        constructor
        · intro h hex
          apply h
          obtain ⟨j, hj, hconv, hpre⟩ := hex
          cases j with
          | zero => exact absurd (by simpa using hconv) hc
          | succ j' =>
            refine ⟨j', Nat.lt_of_succ_lt_succ hj, ?_, ?_⟩
            · have : k + 1 + j' = k + (j' + 1) := by omega
              rw [this]
              exact hconv
            · intro i hi
              have : k + 1 + i = k + (i + 1) := by omega
              rw [this]
              exact hpre (i + 1) (Nat.succ_lt_succ hi)
        · intro h hex
          apply h
          obtain ⟨j, hj, hconv, hpre⟩ := hex
          refine ⟨j + 1, Nat.succ_lt_succ hj, ?_, ?_⟩
          · have : k + (j + 1) = k + 1 + j := by omega
            rw [this]
            exact hconv
          · intro i hi
            cases i with
            | zero => simpa using ⟨hc', hd'⟩
            | succ i' =>
              have : k + (i' + 1) = k + 1 + i' := by omega
              rw [this]
              exact hpre i' (Nat.lt_of_succ_lt_succ hi)

/-- C5: `calculate_irr`'s solver runs Newton-Raphson from initial guess
0.10 for at most 100 iterations with tolerance 1e-6 on |NPV| and a rate
floor of -0.99 (built into `newtonStep`); it returns None exactly when
fewer than 2 flows exist or when the iteration fails to converge before
the budget (including the case where the derivative's magnitude falls
below the tolerance first); any returned rate satisfies |NPV| < 1e-6. -/
theorem c5_irr_newton_characterization (npvF dF : ℚ → ℚ)
    (flows : List (ℚ × ℤ)) :
    (irrSolve npvF dF flows (1 / 10) = none ↔
      flows.length < 2 ∨ ¬ convergesWithin npvF dF (1 / 10) 100) ∧
    (∀ r, irrSolve npvF dF flows (1 / 10) = some r → |npvF r| < irrTolerance) := by
  constructor
  · unfold irrSolve
    by_cases hlen : flows.length < 2
    · simp [hlen]
    · rw [if_neg hlen]
      have h0 : (1 / 10 : ℚ) = rateSeq npvF dF (1 / 10) 0 := rfl
      rw [h0, newtonLoop_none_iff npvF dF (1 / 10) 100 0]
      unfold convergesWithin
      simp only [zero_add, hlen, false_or]
      constructor
      · intro h hex
        apply h
        obtain ⟨k, hk, hconv, hpre⟩ := hex
        exact ⟨k, hk, hconv, hpre⟩
      · intro h hex
        apply h
        obtain ⟨k, hk, hconv, hpre⟩ := hex
        exact ⟨k, hk, hconv, hpre⟩
  · intro r h
    unfold irrSolve at h
    by_cases hlen : flows.length < 2
    · rw [if_pos hlen] at h
      cases h
    · rw [if_neg hlen] at h
      exact newtonLoop_some_converged npvF dF 100 _ r h

/-! ## Claim C6 -/

theorem cashFlowOfTxn_none_of_type {t : Txn}
    (h1 : t.type ≠ "DEPOSIT") (h2 : t.type ≠ "WITHDRAW")
    (h3 : t.type ≠ "DIVIDEND") : cashFlowOfTxn t = none := by
  unfold cashFlowOfTxn
  rw [if_neg h1, if_neg h2, if_neg h3]

theorem get_cash_flows_nil_of_no_flows {txs : List Txn} {startD endD : ℤ}
    (h : ∀ t ∈ txs,
      (t.type = "DEPOSIT" ∨ t.type = "WITHDRAW" ∨ t.type = "DIVIDEND") →
      ¬(startD ≤ t.date ∧ t.date ≤ endD)) :
    get_cash_flows txs startD endD = [] := by
  unfold get_cash_flows
  have hfm : (txs.filter
      (fun t => decide (startD ≤ t.date ∧ t.date ≤ endD))).filterMap
      cashFlowOfTxn = [] := by
    apply List.filterMap_eq_nil_iff.mpr
    intro t ht
    rw [List.mem_filter] at ht
    obtain ⟨hmem, hrange⟩ := ht
    rw [decide_eq_true_eq] at hrange
    by_cases h1 : t.type = "DEPOSIT"
    · exact absurd hrange (h t hmem (Or.inl h1))
    by_cases h2 : t.type = "WITHDRAW"
    · exact absurd hrange (h t hmem (Or.inr (Or.inl h2)))
    by_cases h3 : t.type = "DIVIDEND"
    · exact absurd hrange (h t hmem (Or.inr (Or.inr h3)))
    exact cashFlowOfTxn_none_of_type h1 h2 h3
  simp only [hfm]
  rfl

/-- C6: with no DEPOSIT/WITHDRAW/DIVIDEND transaction dated inside
[start, end] and start < end, TWRR equals the simple return
(end_value - start_value)/start_value when the starting value is
positive, and the zero-starting-value sub-period is skipped (TWRR 0.0),
not treated as 0% of something infinite. -/
theorem c6_twrr_simple_return (txs : List Txn)
    (gp : String → ℤ → Option ℚ) (dl : String → ℤ → Except Unit (Option ℚ))
    (s e : ℤ) (hlt : s < e)
    (hnoflow : ∀ t ∈ txs,
      (t.type = "DEPOSIT" ∨ t.type = "WITHDRAW" ∨ t.type = "DIVIDEND") →
      ¬(s ≤ t.date ∧ t.date ≤ e)) :
    calculate_twrr txs s e gp dl =
      if 0 < calculate_portfolio_value txs s gp dl then
        (calculate_portfolio_value txs e gp dl -
          calculate_portfolio_value txs s gp dl) /
          calculate_portfolio_value txs s gp dl
      else 0 := by
  unfold calculate_twrr
  rw [get_cash_flows_nil_of_no_flows hnoflow]
  simp only [List.map_nil]
  have hdates : dedupSorted [] ++ [e] = [e] := rfl
  rw [hdates]
  set V := fun d => calculate_portfolio_value txs d gp dl with hV
  have hstep : ¬(e ≤ s) := not_le.mpr hlt
  by_cases hpos : 0 < V s
  · rw [if_pos hpos]
    have hloop : twrrLoop V [e] s (V s) [] = [(V e - V s) / V s] := by
      unfold twrrLoop
      rw [if_neg hstep]
      simp only [gt_iff_lt, hpos, if_pos]
      rfl
    rw [hloop]
    have hne : ([(V e - V s) / V s] : List ℚ) ≠ [] := by simp
    rw [if_neg hne]
    simp only [List.foldl_cons, List.foldl_nil]
    ring
  · rw [if_neg hpos]
    have hloop : twrrLoop V [e] s (V s) [] = [] := by
      unfold twrrLoop
      rw [if_neg hstep]
      simp only [gt_iff_lt, hpos, if_neg, if_false]
      rfl
    rw [hloop]
    rfl

/-- Witness for C6 on a one-BUY ledger with no cash flows in range. -/
theorem c6_twrr_simple_return_witness :
    ((0 : ℤ) < 5) ∧
    (∀ t ∈ [(⟨1, 0, "BUY", some "AAPL", some 10, some 100, some 0⟩ : Txn)],
      (t.type = "DEPOSIT" ∨ t.type = "WITHDRAW" ∨ t.type = "DIVIDEND") →
      ¬((0 : ℤ) ≤ t.date ∧ t.date ≤ 5)) ∧
    calculate_twrr [⟨1, 0, "BUY", some "AAPL", some 10, some 100, some 0⟩] 0 5
      (fun _ _ => some 110) (fun _ _ => Except.ok none) =
      (if 0 < calculate_portfolio_value
          [⟨1, 0, "BUY", some "AAPL", some 10, some 100, some 0⟩] 0
          (fun _ _ => some 110) (fun _ _ => Except.ok none) then
        (calculate_portfolio_value
            [⟨1, 0, "BUY", some "AAPL", some 10, some 100, some 0⟩] 5
            (fun _ _ => some 110) (fun _ _ => Except.ok none) -
          calculate_portfolio_value
            [⟨1, 0, "BUY", some "AAPL", some 10, some 100, some 0⟩] 0
            (fun _ _ => some 110) (fun _ _ => Except.ok none)) /
          calculate_portfolio_value
            [⟨1, 0, "BUY", some "AAPL", some 10, some 100, some 0⟩] 0
            (fun _ _ => some 110) (fun _ _ => Except.ok none)
      else 0) := by
  refine ⟨by decide, by decide, ?_⟩
  exact c6_twrr_simple_return _ _ _ 0 5 (by decide) (by decide)

/-! ## Claim C3 -/

theorem foldl_eq_add_sum {α : Type} (f : ℚ → α → ℚ) (g : α → ℚ)
    (hf : ∀ acc a, f acc a = acc + g a) :
    ∀ (l : List α) (acc : ℚ), l.foldl f acc = acc + (l.map g).sum := by
  intro l
  induction l with
  | nil => intro acc; simp
  | cons a l ih =>
    intro acc
    rw [List.foldl_cons, hf, ih, List.map_cons, List.sum_cons]
    ring

theorem realized_step (txs : List Txn) (acc : ℚ) (t : Txn) :
    (if t.type ≠ "SELL" then acc
     else
       match t.symbol with
       | none => acc
       | some s0 =>
         if s0 = "" then acc
         else
           match t.qty, t.price with
           | some q, some pr =>
             let sym := upperStr s0
             let positions := get_positions txs (t.date - 1)
             match dlookup sym positions with
             | none => acc
             | some pos => acc + ((q * pr - t.fee.getD 0) - q * pos.avg_price)
           | _, _ => acc)
    = acc + sellContrib txs t := by
  by_cases hty : t.type ≠ "SELL"
  · simp [sellContrib, hty]
  · cases hsym : t.symbol with
    | none => simp [sellContrib, hty, hsym]
    | some s0 =>
      by_cases hs0 : s0 = ""
      · simp [sellContrib, hty, hsym, hs0]
      · cases hq : t.qty with
        | none => simp [sellContrib, hty, hsym, hs0, hq]
        | some q =>
          cases hp : t.price with
          | none => simp [sellContrib, hty, hsym, hs0, hq, hp]
          | some pr =>
            cases hd : dlookup (upperStr s0) (get_positions txs (t.date - 1)) with
            | none => simp [sellContrib, hty, hsym, hs0, hq, hp, hd]
            | some pos => simp [sellContrib, hty, hsym, hs0, hq, hp, hd]

theorem sum_map_eq_filter_map {α : Type} (p : α → Bool) (f g : α → ℚ) :
    ∀ l : List α, (∀ a ∈ l, f a = if p a then g a else 0) →
      (l.map f).sum = ((l.filter p).map g).sum := by
  intro l
  induction l with
  | nil => intro; simp
  | cons a l ih =>
    intro h
    rw [List.map_cons, List.sum_cons, h a (by simp)]
    by_cases hp : p a
    · rw [if_pos hp, List.filter_cons_of_pos hp, List.map_cons, List.sum_cons,
        ih (fun b hb => h b (by simp [hb]))]
    · rw [if_neg hp, List.filter_cons_of_neg (by simpa using hp),
        ih (fun b hb => h b (by simp [hb])), zero_add]

theorem sellContrib_ite (txs : List Txn) (s e : ℤ) (t : Txn)
    (hr : s ≤ t.date ∧ t.date ≤ e) :
    sellContrib txs t = if isCountedSell txs s e t then sellGain txs t else 0 := by
  by_cases hty : t.type = "SELL"
  · cases hsym : t.symbol with
    | none => simp [sellContrib, isCountedSell, hty, hsym, hr]
    | some s0 =>
      by_cases hs0 : s0 = ""
      · rcases hq : t.qty with _ | q <;> rcases hp : t.price with _ | p <;>
          simp [sellContrib, isCountedSell, hty, hsym, hs0, hq, hp, hr]
      · cases hq : t.qty with
        | none => simp [sellContrib, isCountedSell, hty, hsym, hs0, hq, hr]
        | some q =>
          cases hp : t.price with
          | none => simp [sellContrib, isCountedSell, hty, hsym, hs0, hq, hp, hr]
          | some pr =>
            cases hd : dlookup (upperStr s0) (get_positions txs (t.date - 1)) with
            | none =>
              simp [sellContrib, isCountedSell, sellGain, hty, hsym, hs0, hq,
                hp, hd, hr]
            | some pos =>
              simp [sellContrib, isCountedSell, sellGain, hty, hsym, hs0, hq,
                hp, hd, hr]
  · simp [sellContrib, isCountedSell, hty, hr]

theorem filter_range_counted (txs : List Txn) (s e : ℤ) :
    (txs.filter (fun t => decide (s ≤ t.date ∧ t.date ≤ e))).filter
      (isCountedSell txs s e) = txs.filter (isCountedSell txs s e) := by
  rw [List.filter_filter]
  apply List.filter_congr
  intro t _
  cases hr : decide (s ≤ t.date ∧ t.date ≤ e)
  · simp [isCountedSell, hr]
  · simp [hr]

/-- C3: `calculate_realized_gains` is the sum, over the SELL transactions
in range (with fields present and the symbol held in the start-of-day
snapshot), of `(sell_qty*sell_price - fee) - sell_qty*avg_cost_before`
where `avg_cost_before` comes from the positions as of the transaction
date minus 1 calendar day; and the BUY 10 @150 fee 5 / SELL 4 @160 fee 3
scenario yields (4*160-3) - 4*150.5 = 35. -/
theorem c3_realized_gains_sum (txs : List Txn) (s e : ℤ) :
    calculate_realized_gains txs s e =
      ((txs.filter (isCountedSell txs s e)).map (sellGain txs)).sum ∧
    calculate_realized_gains c3Ledger 0 30 = 35 := by
  constructor
  · unfold calculate_realized_gains
    rw [foldl_eq_add_sum _ (sellContrib txs)
      (fun acc t => realized_step txs acc t), zero_add,
      sum_map_eq_filter_map (isCountedSell txs s e) _ (sellGain txs) _
        (fun t ht => sellContrib_ite txs s e t
          (by simpa using (List.mem_filter.mp ht).2)),
      filter_range_counted]
  · have heval : dlookup "AAPL" (get_positions c3Ledger 9) =
        some ⟨10, 1505, 301 / 2⟩ := by
      norm_num [c3Ledger, get_positions, sortBy, insertAfterLE, applyTxn,
        dlookup, updMap, upperStr_AAPL, txnLE]
    have hA : ("AAPL" : String) ≠ "" := by decide
    have hBS : ("BUY" : String) ≠ "SELL" := by decide
    unfold calculate_realized_gains
    simp only [c3Ledger] at heval
    norm_num [c3Ledger]
    norm_num [upperStr_AAPL, heval, hA, hBS]

/-! ## Claim C10 -/

theorem resolvePrice_none {gp : String → ℤ → Option ℚ}
    {dl : String → ℤ → Except Unit (Option ℚ)} {s : String} {d : ℤ}
    (hgp : gp s d = none)
    (hdl : dl s d = Except.error () ∨ dl s d = Except.ok none) :
    resolvePrice gp dl s d = none := by
  unfold resolvePrice
  rw [hgp]
  rcases hdl with h | h <;> rw [h]

theorem get_positions_all_pos (txs : List Txn) (d : ℤ) :
    ∀ e ∈ get_positions txs d, 0 < e.2.qty := by
  intro e he
  unfold get_positions at he
  simp only [List.mem_filter, decide_eq_true_eq] at he
  exact he.2

theorem breakdown_foldl (ent : String × Pos → String × BreakdownEntry) :
    ∀ (m : PMap) (acc : List (String × BreakdownEntry)),
      (∀ e ∈ m, ¬e.2.qty ≤ 0) →
      m.foldl (fun acc e => if e.2.qty ≤ 0 then acc else acc ++ [ent e]) acc =
        acc ++ m.map ent := by
  intro m
  induction m with
  | nil => intro acc _; simp
  | cons e rest ih =>
    intro acc h
    rw [List.foldl_cons, if_neg (h e (by simp)), List.map_cons,
      ih (acc ++ [ent e]) (fun b hb => h b (by simp [hb]))]
    simp

theorem dlookup_map_entry {β γ : Type} (f : String → β → γ) (s : String) :
    ∀ m : List (String × β),
      dlookup s (m.map (fun e => (e.1, f e.1 e.2))) =
        (dlookup s m).map (f s) := by
  intro m
  induction m with
  | nil => simp [dlookup]
  | cons e rest ih =>
    obtain ⟨k, v⟩ := e
    by_cases hk : k = s
    · subst hk; simp [dlookup]
    · simp [dlookup, hk, ih]

/-- C10: when a symbol's price lookup is absent (including a raising
download), `get_portfolio_breakdown` prices it at the position's
`avg_price` — its current_value is qty × avg_price and its
unrealized_gain is qty × avg_price − cost_basis, which is exactly 0 —
whereas `calculate_portfolio_value`'s per-position contribution (`pvTerm`)
substitutes the position's `cost_basis` in the same situation. -/
theorem c10_breakdown_price_fallback (txs : List Txn) (d : ℤ)
    (gp : String → ℤ → Option ℚ) (dl : String → ℤ → Except Unit (Option ℚ))
    (s : String) (p : Pos)
    (hp : dlookup s (get_positions txs d) = some p)
    (hgp : gp s d = none)
    (hdl : dl s d = Except.error () ∨ dl s d = Except.ok none) :
    dlookup s (get_portfolio_breakdown txs d gp dl) =
      some ⟨p.qty, p.cost_basis, p.qty * p.avg_price,
            p.qty * p.avg_price - p.cost_basis⟩ ∧
    p.qty * p.avg_price - p.cost_basis = 0 ∧
    pvTerm (resolvePrice gp dl) d (s, p) = p.cost_basis ∧
    calculate_portfolio_value txs d gp dl =
      ((get_positions txs d).map (pvTerm (resolvePrice gp dl) d)).sum := by
  have hres : resolvePrice gp dl s d = none := resolvePrice_none hgp hdl
  have hall := get_positions_all_pos txs d
  have hzero : p.cost_basis = p.qty * p.avg_price :=
    (get_positions_entry_inv hp).2
  refine ⟨?_, by rw [hzero]; ring, ?_, ?_⟩
  · unfold get_portfolio_breakdown
    rw [breakdown_foldl _ _ [] (fun e he => not_le.mpr (hall e he))]
    rw [List.nil_append]
    have hmap := dlookup_map_entry
      (fun sym pos => BreakdownEntry.mk pos.qty pos.cost_basis
        (pos.qty * ((resolvePrice gp dl sym d).getD pos.avg_price))
        (pos.qty * ((resolvePrice gp dl sym d).getD pos.avg_price) -
          pos.cost_basis)) s (get_positions txs d)
    rw [hmap, hp]
    simp [hres]
  · unfold pvTerm
    rw [hres]
  · unfold calculate_portfolio_value
    rw [List.filter_eq_self.mpr
      (fun e he => by simpa using not_le.mpr (hall e he))]
    rw [foldl_eq_add_sum _ (pvTerm (resolvePrice gp dl) d)
      (fun acc e => rfl), zero_add]

/-- Witness for C10 on a one-BUY ledger with all prices absent and a
raising downloader. -/
theorem c10_breakdown_price_fallback_witness :
    dlookup "AAPL" (get_positions
        [⟨1, 1, "BUY", some "AAPL", some 10, some 150, some 5⟩] 5) =
      some ⟨10, 1505, 301 / 2⟩ ∧
    dlookup "AAPL" (get_portfolio_breakdown
        [⟨1, 1, "BUY", some "AAPL", some 10, some 150, some 5⟩] 5
        (fun _ _ => none) (fun _ _ => Except.error ())) =
      some ⟨10, 1505, 10 * (301 / 2), 10 * (301 / 2) - 1505⟩ ∧
    pvTerm (resolvePrice (fun _ _ => none) (fun _ _ => Except.error ())) 5
      ("AAPL", ⟨10, 1505, 301 / 2⟩) = 1505 := by
  have hp : dlookup "AAPL" (get_positions
      [⟨1, 1, "BUY", some "AAPL", some 10, some 150, some 5⟩] 5) =
      some ⟨10, 1505, 301 / 2⟩ := by
    norm_num [get_positions, sortBy, insertAfterLE, applyTxn, dlookup,
      updMap, upperStr_AAPL, txnLE]
  obtain ⟨h1, h2, h3, h4⟩ := c10_breakdown_price_fallback
    [⟨1, 1, "BUY", some "AAPL", some 10, some 150, some 5⟩] 5
    (fun _ _ => none) (fun _ _ => Except.error ()) "AAPL" ⟨10, 1505, 301 / 2⟩
    hp rfl (Or.inl rfl)
  exact ⟨hp, h1, h3⟩

/-! ## Claim C1: the replay matches the spec's recurrence

The source loop initializes a `{qty: 0, cost_basis: 0, avg_price: 0}`
entry for a BUY/SELL symbol even when qty/price are missing, and skips a
SELL whose clamped quantity is not positive; the spec's recurrence does
neither.  The two agree after the final qty > 0 filter.  The proof keeps
a simulation invariant: the source map may hold extra all-zero entries,
any entry has qty ≥ 0, an entry with qty = 0 is the all-zero entry, and a
positive entry satisfies cost_basis = qty * avg_price. -/

theorem posZOK_zero : PosZOK ⟨0, 0, 0⟩ := by
  refine ⟨le_refl 0, fun _ => rfl, fun h => ?_⟩
  norm_num at h

theorem zOK_updMap {m : PMap} {s : String} {p : Pos}
    (hm : ZOK m) (hp : PosZOK p) : ZOK (updMap s p m) := by
  intro t q hq
  rw [dlookup_updMap] at hq
  by_cases h : s = t
  · rw [if_pos h] at hq
    cases hq
    exact hp
  · exact hm t q (by rwa [if_neg h] at hq)

theorem rel_updMap_same {m₁ m₂ : PMap} (sym : String) (v : Pos)
    (h : Rel m₁ m₂) : Rel (updMap sym v m₁) (updMap sym v m₂) := by
  intro s
  rw [dlookup_updMap, dlookup_updMap]
  by_cases hs : sym = s
  · rw [if_pos hs, if_pos hs]
    exact Or.inl rfl
  · rw [if_neg hs, if_neg hs]
    exact h s

theorem rel_init {m₁ m₂ : PMap} (sym : String)
    (h : Rel m₁ m₂) (habs : dlookup sym m₁ = none) :
    Rel (updMap sym ⟨0, 0, 0⟩ m₁) m₂ := by
  intro s
  rw [dlookup_updMap]
  by_cases hs : sym = s
  · subst hs
    rcases h sym with heq | ⟨h1, _⟩
    · rw [if_pos rfl]
      exact Or.inr ⟨rfl, heq ▸ habs⟩
    · rw [habs] at h1
      cases h1
  · rw [if_neg hs]
    exact h s

theorem init_facts {m₁ m₂ : PMap} (sym : String) (hZ : ZOK m₁) (hR : Rel m₁ m₂) :
    ZOK (if (dlookup sym m₁).isSome then m₁ else updMap sym ⟨0, 0, 0⟩ m₁) ∧
    Rel (if (dlookup sym m₁).isSome then m₁ else updMap sym ⟨0, 0, 0⟩ m₁) m₂ ∧
    ((dlookup sym (if (dlookup sym m₁).isSome then m₁
        else updMap sym ⟨0, 0, 0⟩ m₁)).getD ⟨0, 0, 0⟩ =
      (dlookup sym m₂).getD ⟨0, 0, 0⟩) ∧
    PosZOK ((dlookup sym (if (dlookup sym m₁).isSome then m₁
        else updMap sym ⟨0, 0, 0⟩ m₁)).getD ⟨0, 0, 0⟩) ∧
    dlookup sym (if (dlookup sym m₁).isSome then m₁
        else updMap sym ⟨0, 0, 0⟩ m₁) =
      some ((dlookup sym (if (dlookup sym m₁).isSome then m₁
        else updMap sym ⟨0, 0, 0⟩ m₁)).getD ⟨0, 0, 0⟩) := by
  by_cases hin : (dlookup sym m₁).isSome
  · rw [if_pos hin]
    cases hd : dlookup sym m₁ with
    | none => rw [hd] at hin; simp at hin
    | some p =>
      refine ⟨hZ, hR, ?_, ?_, ?_⟩
      · rcases hR sym with heq | ⟨h1, h2⟩
        · rw [heq.symm.trans hd]
        · rw [h2]
          have hp0 : p = ⟨0, 0, 0⟩ := by
            rw [hd] at h1
            cases h1
            rfl
          rw [hp0]
          rfl
      · exact hZ sym p hd
      · rfl
  · have habs : dlookup sym m₁ = none := by
      cases hd : dlookup sym m₁ with
      | none => rfl
      | some p => rw [hd] at hin; simp at hin
    rw [if_neg hin]
    have hlook : dlookup sym (updMap sym ⟨0, 0, 0⟩ m₁) = some ⟨0, 0, 0⟩ := by
      rw [dlookup_updMap, if_pos rfl]
    refine ⟨zOK_updMap hZ posZOK_zero, rel_init sym hR habs, ?_, ?_, ?_⟩
    · rw [hlook]
      rcases hR sym with heq | ⟨h1, _⟩
      · rw [← heq, habs]
        rfl
      · rw [habs] at h1
        cases h1
    · rw [hlook]
      exact posZOK_zero
    · rw [hlook]
      rfl

theorem ite_gt_min (q c : ℚ) : (if q > c then c else q) = min q c := by
  by_cases h : q ≤ c
  · rw [if_neg (not_lt.mpr h), min_eq_left h]
  · have hlt := not_le.mp h
    rw [if_pos hlt, min_eq_right (le_of_lt hlt)]

theorem step_rel (t : Txn)
    (ht : ∀ q, t.qty = some q → (t.type = "BUY" ∨ t.type = "SELL") → 0 < q)
    {m₁ m₂ : PMap} (hZ : ZOK m₁) (hR : Rel m₁ m₂) :
    ZOK (applyTxn m₁ t) ∧ Rel (applyTxn m₁ t) (specStep m₂ t) := by
  unfold applyTxn specStep
  rcases hsym : t.symbol with _ | s0
  · simp only [hsym]
    by_cases hty : t.type ≠ "BUY" ∧ t.type ≠ "SELL"
    · rw [if_pos hty]
      exact ⟨hZ, hR⟩
    · rw [if_neg hty]
      exact ⟨hZ, hR⟩
  · simp only [hsym]
    by_cases hs0 : s0 = ""
    · by_cases hty : t.type ≠ "BUY" ∧ t.type ≠ "SELL"
      · rw [if_pos hty, if_pos hs0]
        exact ⟨hZ, hR⟩
      · rw [if_neg hty, if_pos hs0, if_pos hs0]
        exact ⟨hZ, hR⟩
    · obtain ⟨hm1Z, hm1R, hcur, hcurZ, hm1look⟩ := init_facts (upperStr s0) hZ hR
      by_cases hbuy : t.type = "BUY"
      · have hty : ¬(t.type ≠ "BUY" ∧ t.type ≠ "SELL") := fun hcon => hcon.1 hbuy
        rw [if_neg hty, if_neg hs0, if_neg hs0, if_pos hbuy, if_pos hbuy]
        rcases hq : t.qty with _ | q
        · simp only [hq]
          exact ⟨hm1Z, hm1R⟩
        · rcases hp : t.price with _ | pr
          · simp only [hq, hp]
            exact ⟨hm1Z, hm1R⟩
          · simp only [hq, hp]
            have hqpos : 0 < q := ht q hq (Or.inl hbuy)
            have hq' : 0 <
                ((dlookup (upperStr s0) (if (dlookup (upperStr s0) m₁).isSome
                  then m₁ else updMap (upperStr s0) ⟨0, 0, 0⟩ m₁)).getD
                    ⟨0, 0, 0⟩).qty + q :=
              add_pos_of_nonneg_of_pos hcurZ.1 hqpos
            rw [if_pos hq', ← hcur]
            refine ⟨zOK_updMap hm1Z ?_, rel_updMap_same _ _ hm1R⟩
            refine ⟨le_of_lt hq', fun h0 => absurd h0 (ne_of_gt hq'),
              fun _ => ?_⟩
            have hne := ne_of_gt hq'
            field_simp
      · by_cases hsell : t.type = "SELL"
        · have hty : ¬(t.type ≠ "BUY" ∧ t.type ≠ "SELL") :=
            fun hcon => hcon.2 hsell
          rw [if_neg hty, if_neg hs0, if_neg hs0, if_neg hbuy, if_neg hbuy,
            if_pos hsell]
          rcases hq : t.qty with _ | q
          · simp only [hq]
            exact ⟨hm1Z, hm1R⟩
          · rcases hp : t.price with _ | pr
            · simp only [hq, hp]
              exact ⟨hm1Z, hm1R⟩
            · simp only [hq, hp]
              have hqpos : 0 < q := ht q hq (Or.inr hsell)
              rw [ite_gt_min, ← hcur]
              set c : Pos :=
                (dlookup (upperStr s0) (if (dlookup (upperStr s0) m₁).isSome
                  then m₁ else updMap (upperStr s0) ⟨0, 0, 0⟩ m₁)).getD
                    ⟨0, 0, 0⟩ with hcdef
              by_cases hsq : 0 < min q c.qty
              · rw [if_pos hsq]
                refine ⟨zOK_updMap hm1Z ?_, rel_updMap_same _ _ hm1R⟩
                have hcq : 0 < c.qty := lt_of_lt_of_le hsq (min_le_right q c.qty)
                have hcb : c.cost_basis = c.qty * c.avg_price := hcurZ.2.2 hcq
                refine ⟨?_, ?_, ?_⟩
                · simp only
                  exact sub_nonneg.mpr (min_le_right q c.qty)
                · intro h0
                  simp only at h0
                  have hmin : min q c.qty = c.qty := by linarith
                  have hcb0 : c.cost_basis - min q c.qty * c.avg_price = 0 := by
                    rw [hmin, hcb]
                    ring
                  rw [h0, hcb0]
                  norm_num
                · intro hpos
                  simp only at hpos ⊢
                  rw [if_pos hpos]
                  have hne := ne_of_gt hpos
                  field_simp
              · rw [if_neg hsq]
                have hsqnn : 0 ≤ min q c.qty :=
                  le_min (le_of_lt hqpos) hcurZ.1
                have hsq0 : min q c.qty = 0 :=
                  le_antisymm (not_lt.mp hsq) hsqnn
                have hcq0 : c.qty = 0 := by
                  by_cases hle : q ≤ c.qty
                  · rw [min_eq_left hle] at hsq0
                    exact absurd hsq0 (ne_of_gt hqpos)
                  · rw [min_eq_right (le_of_lt (not_le.mp hle))] at hsq0
                    exact hsq0
                have hc0 : c = ⟨0, 0, 0⟩ := hcurZ.2.1 hcq0
                have hval : (⟨c.qty - min q c.qty,
                    c.cost_basis - min q c.qty * c.avg_price,
                    if c.qty - min q c.qty > 0 then
                      (c.cost_basis - min q c.qty * c.avg_price) /
                        (c.qty - min q c.qty)
                    else 0⟩ : Pos) = ⟨0, 0, 0⟩ := by
                  rw [hc0]
                  norm_num
                  exact le_of_lt hqpos
                rw [hval]
                refine ⟨hm1Z, ?_⟩
                intro s
                by_cases hss : upperStr s0 = s
                · rw [dlookup_updMap, if_pos hss, ← hss]
                  rw [hm1look, hc0]
                  exact Or.inl rfl
                · rw [dlookup_updMap, if_neg hss]
                  exact hm1R s
        · have hty : t.type ≠ "BUY" ∧ t.type ≠ "SELL" := ⟨hbuy, hsell⟩
          rw [if_pos hty, if_neg hs0, if_neg hbuy, if_neg hsell]
          exact ⟨hZ, hR⟩

theorem fold_rel :
    ∀ (l : List Txn),
      (∀ t ∈ l, ∀ q, t.qty = some q →
        (t.type = "BUY" ∨ t.type = "SELL") → 0 < q) →
      ∀ {m₁ m₂ : PMap}, ZOK m₁ → Rel m₁ m₂ →
        ZOK (l.foldl applyTxn m₁) ∧
          Rel (l.foldl applyTxn m₁) (l.foldl specStep m₂) := by
  intro l
  induction l with
  | nil => intro _ m₁ m₂ hZ hR; exact ⟨hZ, hR⟩
  | cons t rest ih =>
    intro hl m₁ m₂ hZ hR
    obtain ⟨hZ', hR'⟩ :=
      step_rel t (fun q hqt hty => hl t (by simp) q hqt hty) hZ hR
    exact ih (fun t' ht' => hl t' (by simp [ht'])) hZ' hR'

theorem nodup_keys_specStep {m : PMap} (hm : (keysOf m).Nodup) (t : Txn) :
    (keysOf (specStep m t)).Nodup := by
  unfold specStep
  rcases hsym : t.symbol with _ | s0
  · exact hm
  · simp only [hsym]
    by_cases hs0 : s0 = ""
    · rw [if_pos hs0]
      exact hm
    · rw [if_neg hs0]
      by_cases hbuy : t.type = "BUY"
      · rw [if_pos hbuy]
        rcases t.qty with _ | q
        · exact hm
        · rcases t.price with _ | pr
          · exact hm
          · exact nodup_keys_updMap _ _ _ hm
      · rw [if_neg hbuy]
        by_cases hsell : t.type = "SELL"
        · rw [if_pos hsell]
          rcases t.qty with _ | q
          · exact hm
          · rcases t.price with _ | pr
            · exact hm
            · exact nodup_keys_updMap _ _ _ hm
        · rw [if_neg hsell]
          exact hm

theorem nodup_keys_spec_foldl {l : List Txn} {m : PMap}
    (hm : (keysOf m).Nodup) : (keysOf (l.foldl specStep m)).Nodup := by
  induction l generalizing m with
  | nil => exact hm
  | cons t rest ih => exact ih (nodup_keys_specStep hm t)

/-- C1: for every ledger whose BUY/SELL quantities are positive (the data
layer enforces this at insertion), `get_positions` computes exactly the
spec's replay recurrence — ascending (date, id) replay with BUY
accumulation, SELL clamping at the held quantity with average-cost
relief, no effect from non-BUY/SELL or field-incomplete transactions, and
the qty ≤ 0 entries dropped. -/
theorem c1_positions_replay (txs : List Txn) (asOf : ℤ)
    (hq : ∀ t ∈ txs, (t.type = "BUY" ∨ t.type = "SELL") →
      ∀ q, t.qty = some q → 0 < q)
    (s : String) :
    dlookup s (get_positions txs asOf) = dlookup s (spec_positions txs asOf) := by
  unfold get_positions spec_positions
  simp only
  have hql : ∀ t ∈ sortBy txnLE (txs.filter (fun t => decide (t.date ≤ asOf))),
      ∀ q, t.qty = some q → (t.type = "BUY" ∨ t.type = "SELL") → 0 < q := by
    intro t htl q hqt hty
    rw [mem_sortBy] at htl
    exact hq t (List.mem_filter.mp htl).1 hty q hqt
  have hZ0 : ZOK ([] : PMap) := fun s p h => by simp [dlookup] at h
  have hR0 : Rel ([] : PMap) ([] : PMap) := fun s => Or.inl rfl
  obtain ⟨hZ, hR⟩ := fold_rel _ hql hZ0 hR0
  rw [dlookup_filter (fun b => decide (b.qty > 0)) s _
    (nodup_keys_foldl (by simp [keysOf]))]
  rw [dlookup_filter (fun b => decide (b.qty > 0)) s _
    (nodup_keys_spec_foldl (by simp [keysOf]))]
  rcases hR s with heq | ⟨h1, h2⟩
  · rw [heq]
  · rw [h1, h2]
    norm_num

/-- Witness for C1 on the two-BUY ledger. -/
theorem c1_positions_replay_witness :
    (∀ t ∈ c9Ledger, (t.type = "BUY" ∨ t.type = "SELL") →
      ∀ q, t.qty = some q → 0 < q) ∧
    dlookup "AAPL" (get_positions c9Ledger 20) =
      dlookup "AAPL" (spec_positions c9Ledger 20) := by
  constructor
  · decide
  · exact c1_positions_replay c9Ledger 20 (by decide) "AAPL"
